import Mathlib

/-!
Verification of the smile-verification/capture pipeline of the love-whale
repository, shallowly embedded from `src/opencv.py` and `src/face_capture.py`.

Modelling conventions:
* Python floats are modelled as exact rationals (`ℚ`); all constants involved
  (40, 50, 3, 0.5, 98, 3.0, ...) and comparisons are far from any rounding
  boundary, so the float/rational distinction never flips a branch here.
* numpy integer box coordinates are modelled as `ℤ`; `//` on nonnegative
  values is `Nat` division on the `ℕ` shape arguments.
* Quantities that the code derives from image pixels through OpenCV calls
  (cascade detections, Canny edge densities, contours, brightness means)
  are oracle parameters of the embedded functions; the control flow and
  arithmetic that combine them are translated from the source.
* Wall-clock timestamps (`datetime.now()`) are modelled as one rational
  timestamp per processing step.
-/

/-- Axis-aligned detection rectangle `(x, y, w, h)` in pixel coordinates,
as produced by the cascade detectors (numpy integer rows). -/
structure FaceBox where
  x : ℤ
  y : ℤ
  w : ℤ
  h : ℤ
deriving DecidableEq, Repr

/-- Pixel area `w * h` of a detection box (`area = w * h` in both scorers). -/
def FaceBox.area (b : FaceBox) : ℤ := b.w * b.h

/-- `FaceCapture.get_smile_intensity` (src/face_capture.py, lines 35-49):
`intensity = len(rects)*40`, plus `(area/50)*3` per box, then clamped with
`min(·,100)` followed by `max(·,40)` when the detection set is non-empty. -/
def fc_get_smile_intensity (smile_rects : List FaceBox) : ℚ :=
  if smile_rects.length = 0 then 0
  else
    let intensity : ℚ := (smile_rects.length : ℚ) * 40
    let intensity := smile_rects.foldl (fun acc b => acc + ((b.area : ℚ) / 50) * 3) intensity
    let intensity := min intensity 100
    let intensity := if 0 < smile_rects.length then max intensity 40 else intensity
    intensity

/-- `get_smile_intensity` (src/opencv.py, lines 35-72).  Unlike the
`FaceCapture` variant it reads and writes the module global
`previous_smile_intensity`: the pre-clamp intensity receives a momentum
bonus of `0.5 * |intensity - previous|`, and the (unclamped) result is
stored back into the global.  Returns `(new previous_smile_intensity,
returned score)`; on an empty detection set the global is reset to `0`
and the score is `0`. -/
def opencv_get_smile_intensity (previous_smile_intensity : ℚ) (smile_rects : List FaceBox) :
    ℚ × ℚ :=
  if smile_rects.length = 0 then (0, 0)
  else
    let intensity : ℚ := (smile_rects.length : ℚ) * 40
    let area_intensity := smile_rects.foldl (fun acc b => acc + ((b.area : ℚ) / 50) * 3) 0
    let intensity := intensity + area_intensity
    let change_factor := |intensity - previous_smile_intensity|
    let intensity := if 0 < change_factor then intensity + change_factor * (1 / 2) else intensity
    let new_previous := intensity
    let intensity := if 0 < smile_rects.length then max (min intensity 100) 40 else intensity
    (new_previous, intensity)

/-- Modelled from the spec's words (§4.3 final intensity formula), as the
refinement target for the scorers:
`score = min(100, max(40 if n>0 else 0, n*40 + Σ(area(box)/50 * 3)))`. -/
def spec_intensity_formula (rects : List FaceBox) : ℚ :=
  min 100 (max (if 0 < rects.length then 40 else 0)
    ((rects.length : ℚ) * 40 + (rects.map (fun b => ((b.area : ℚ) / 50) * 3)).sum))

/-- Scores produced by repeated calls to `FaceCapture.get_smile_intensity`,
one call per detection set in the list (src/face_capture.py keeps no state
between calls). -/
def fc_score_history : List (List FaceBox) → List ℚ
  | [] => []
  | s :: rest => fc_get_smile_intensity s :: fc_score_history rest

/-- Scores produced by repeated calls to opencv.py's `get_smile_intensity`,
threading the `previous_smile_intensity` global between calls. -/
def opencv_score_history (previous : ℚ) : List (List FaceBox) → List ℚ
  | [] => []
  | s :: rest =>
    let r := opencv_get_smile_intensity previous s
    r.2 :: opencv_score_history r.1 rest

/-- `mouth_region_start = int(h * 0.55)` (src/opencv.py line 83 / 269):
truncation of `0.55 * h` for a nonnegative height, i.e. `⌊11h/20⌋`. -/
def mouth_region_start (h : ℕ) : ℕ := 11 * h / 20

/-- `detect_smile_curves` (src/opencv.py, lines 74-118; identical in
src/face_capture.py, lines 51-85).  The image-derived raw quantities are
oracle parameters: `edgeDensity` is the Canny edge-pixel fraction,
`contours` the list of `(contourArea, len(approxPolyDP))` pairs,
`brightnessDiff` the `|mouth - upper|` mean-brightness difference, and
`horizFrac` the fraction of strong vertical-Sobel pixels.  A zero-size
face crop short-circuits to score `0`; otherwise the four contributions
are capped and summed and the total capped at 60. -/
def detect_smile_curves (roiSize : ℕ) (edgeDensity : ℚ) (contours : List (ℚ × ℕ))
    (brightnessDiff : ℚ) (horizFrac : ℚ) : ℚ :=
  if roiSize = 0 then 0
  else
    let s := edgeDensity * 40
    let s := (contours.filter (fun c => 20 < c.1)).foldl
      (fun acc c => acc + min ((c.2 : ℚ) * 2) 30) s
    let s := s + min (brightnessDiff / 5) 20
    let s := s + min (horizFrac * 100) 25
    min s 60

/-- Cascade-pass selection in `detect_smiles_threaded` (src/opencv.py line
255): `smiles1 if len(smiles1)>0 else (smiles2 if len(smiles2)>0 else
smiles3)`. -/
def select_cascade (s1 s2 s3 : List FaceBox) : List FaceBox :=
  if s1.length > 0 then s1 else if s2.length > 0 then s2 else s3

/-- Fusion tail of `detect_smiles_threaded` (src/opencv.py, lines 260-273;
identical in src/face_capture.py, lines 114-122): with cascade detections
present and curve score above 50, duplicate the first half of the
detections (only when more than one); with an empty cascade set and curve
score above 40, synthesize one box `(w//4, int(0.55*h), w//2, h//3)`;
otherwise no detections. -/
def fuse_smiles (cascade_smiles : List FaceBox) (curve_smile_score : ℚ) (h w : ℕ) :
    List FaceBox :=
  if cascade_smiles.length > 0 then
    if curve_smile_score > 50 then
      if cascade_smiles.length > 1 then
        cascade_smiles ++ cascade_smiles.take (cascade_smiles.length / 2)
      else cascade_smiles
    else cascade_smiles
  else if curve_smile_score > 40 then
    [⟨(w / 4 : ℕ), (mouth_region_start h : ℕ), (w / 2 : ℕ), (h / 3 : ℕ)⟩]
  else []

/-- `detect_smiles_threaded` (src/opencv.py, lines 243-276) as the value it
stores into `smile_detections[face_id]`: a zero-size grayscale crop stores
an empty detection set; otherwise the three cascade passes (oracle
parameters `s1 s2 s3`) are selected and fused with the curve score of the
crop. -/
def detect_smiles_threaded (roiSize : ℕ) (s1 s2 s3 : List FaceBox) (curve : ℚ)
    (h w : ℕ) : List FaceBox :=
  if roiSize = 0 then []
  else fuse_smiles (select_cascade s1 s2 s3) curve h w

/-- Face center `(x + w//2, y + h//2)` (src/opencv.py line 132); `//` is
Python floor division, i.e. `Int.fdiv`. -/
def jitter_center (b : FaceBox) : ℤ × ℤ := (b.x + b.w.fdiv 2, b.y + b.h.fdiv 2)

/-- Squared Euclidean center distance between a candidate and a previous
box.  The source compares `np.sqrt(dsq) < 40` and `np.sqrt(dsq) > 8`;
since `√` is monotone and the thresholds are exact integers these are
equivalent to `dsq < 1600` and `dsq > 64`. -/
def jitter_dist_sq (a b : FaceBox) : ℤ :=
  ((jitter_center a).1 - (jitter_center b).1) ^ 2 +
    ((jitter_center a).2 - (jitter_center b).2) ^ 2

/-- `size_diff = abs(w - pw) + abs(h - ph)` (src/opencv.py line 144). -/
def jitter_size_diff (a b : FaceBox) : ℤ := |a.w - b.w| + |a.h - b.h|

/-- Inner loop of `filter_face_jitter` over the previous-frame registry
(src/opencv.py, lines 136-159).  Returns the id of the previous box on
which the loop breaks (marking it used), or `none` when the loop falls
through without a match.  Branches, in source order: a not-yet-used
previous box with `distance < 40 and size_diff < 20` breaks iff
`distance > 8 or size_diff > 4` (otherwise the scan continues); the
complementary `elif distance >= 40 or size_diff >= 20` always breaks. -/
def jitter_scan (face : FaceBox) (used : List ℕ) : List (ℕ × FaceBox) → Option ℕ
  | [] => none
  | (pid, pf) :: rest =>
    if pid ∈ used then jitter_scan face used rest
    else
      let dsq := jitter_dist_sq face pf
      let sd := jitter_size_diff face pf
      if dsq < 1600 ∧ sd < 20 then
        if 64 < dsq ∨ 4 < sd then some pid
        else jitter_scan face used rest
      else some pid

/-- Outer loop of `filter_face_jitter` (src/opencv.py, lines 130-163).
Every branch of the source appends the candidate to `stable_faces`: both
break branches append before breaking, and a candidate whose scan falls
through is appended by the `if not matched` fallback (line 162-163).  The
only cross-candidate effect is the `used_previous` set. -/
def filter_face_jitter_loop (previous : List (ℕ × FaceBox)) (used : List ℕ) :
    List FaceBox → List FaceBox
  | [] => []
  | face :: rest =>
    match jitter_scan face used previous with
    | some pid => face :: filter_face_jitter_loop previous (pid :: used) rest
    | none => face :: filter_face_jitter_loop previous used rest

/-- `filter_face_jitter` (src/opencv.py, lines 120-170), as the list of
stable faces it returns; the previous-frame registry dict `{i: face}`
iterates in insertion order, i.e. by index. -/
def filter_face_jitter (previous_faces : List FaceBox) (faces : List FaceBox) :
    List FaceBox :=
  filter_face_jitter_loop previous_faces.enum [] faces

/-- One step of the capture hold logic (src/opencv.py, lines 356-393;
identical in src/face_capture.py, lines 210-239), for one face
observation with intensity `intensity` at wall-clock time `now`.  State is
`smile_start_time : Option ℚ`.  Mirrors the source: on `intensity >= 98`
the start time is set if unset and the capture branch is taken iff
`elapsed >= 3.0 and intensity >= 98` (the re-check of the source), which
also resets the start time; on `intensity < 98` the start time is reset.
Returns `(new start time, capture branch taken)`. -/
def capture_step (st : Option ℚ) (intensity now : ℚ) : Option ℚ × Bool :=
  if 98 ≤ intensity then
    let start := st.getD now
    if 3 ≤ now - start ∧ 98 ≤ intensity then (none, true)
    else (some start, false)
  else (none, false)

/-- The capture machine of src/opencv.py run over a trace of
`(intensity, timestamp)` observations, producing the per-step capture
flags.  After a capture the script resets the timer and keeps running
("Reset for next capture", src/opencv.py line 388). -/
def capture_run (st : Option ℚ) : List (ℚ × ℚ) → List Bool
  | [] => []
  | p :: rest =>
    let r := capture_step st p.1 p.2
    r.2 :: capture_run r.1 rest

/-- The capture machine as driven by `FaceCapture.capture_face_with_smile`
(src/face_capture.py, lines 210-243): identical stepping, but on a
successful capture `capture_success` breaks out of both loops, so the
trace ends at the first capture. -/
def fc_capture_run (st : Option ℚ) : List (ℚ × ℚ) → List Bool
  | [] => []
  | p :: rest =>
    let r := capture_step st p.1 p.2
    if r.2 then [true] else false :: fc_capture_run r.1 rest

/-- Per-frame processing of src/opencv.py's main loop (lines 314-396): the
capture logic runs once per detected face, in detector order, each face
feeding its own intensity to the shared `smile_start_time` state; the
frame's capture flag records whether any face took the capture branch.
(`max_smile_in_frame` is computed but used only for the on-screen
"Max Intensity" overlay, lines 344 and 395-399.) -/
def frame_faces_step (st : Option ℚ) (now : ℚ) (intensities : List ℚ) :
    Option ℚ × Bool :=
  intensities.foldl
    (fun acc i =>
      let r := capture_step acc.1 i now
      (r.1, acc.2 || r.2))
    (st, false)

/-- src/opencv.py's main loop over a list of frames, each frame given as
its faces' intensities (in processing order) and its timestamp. -/
def frames_run (st : Option ℚ) : List (List ℚ × ℚ) → List Bool
  | [] => []
  | f :: rest =>
    let r := frame_faces_step st f.2 f.1
    r.2 :: frames_run r.1 rest

/-- `f.startswith('smile_capture_') and f.endswith('.jpg')`
(src/opencv.py line 208). -/
def is_capture_file (name : String) : Bool :=
  name.startsWith "smile_capture_" && name.endsWith ".jpg"

/-- `cleanup_old_captures` (src/opencv.py, lines 201-223), modelling the
output directory as a list of `(filename, mtime)` pairs.  Matching files
are sorted by modification time, newest first (`sort` is stable, so the
Bool order `b.2 ≤ a.2` matches `reverse=True`), and every matching file
except the head of the sorted list is removed (the happy path of the
`os.remove` loop).  With at most one matching file the directory is left
untouched. -/
def cleanup_old_captures (dir : List (String × ℚ)) : List (String × ℚ) :=
  let files := dir.filter (fun f => is_capture_file f.1)
  if files.length ≤ 1 then dir
  else
    let sorted := files.mergeSort (fun a b => decide (b.2 ≤ a.2))
    dir.filter (fun f => !is_capture_file f.1 || decide (sorted.head? = some f))

/-- Bounding-box clipping of `crop_circle_region` (src/opencv.py, lines
183-199; identical in src/face_capture.py, lines 87-98):
`(max(0, cx-r), min(W, cx+r), max(0, cy-r), min(H, cy+r))`, the slice
bounds applied to the masked frame. -/
def crop_circle_bounds (frameW frameH cx cy radius : ℤ) : ℤ × ℤ × ℤ × ℤ :=
  (max 0 (cx - radius), min frameW (cx + radius),
   max 0 (cy - radius), min frameH (cy + radius))

/-! ## Helper lemmas -/

theorem foldl_add_map (f : FaceBox → ℚ) :
    ∀ (l : List FaceBox) (a : ℚ),
      l.foldl (fun acc b => acc + f b) a = a + (l.map f).sum := by
  intro l
  induction l with
  | nil => intro a; simp
  | cons b rest ih =>
    intro a
    simp only [List.foldl_cons, List.map_cons, List.sum_cons, ih]
    ring

theorem clamp_comm (s : ℚ) : max (min s 100) 40 = min 100 (max 40 s) := by
  simp only [min_def, max_def]
  split_ifs <;> linarith

theorem mem_eq_of_length_le_one {α : Type} {l : List α} (hlen : l.length ≤ 1)
    {a b : α} (ha : a ∈ l) (hb : b ∈ l) : a = b := by
  cases l with
  | nil => cases ha
  | cons x xs =>
    cases xs with
    | nil =>
      simp only [List.mem_singleton] at ha hb
      rw [ha, hb]
    | cons y ys => simp at hlen

theorem length_le_one_of_nodup_all_eq {α : Type} {l : List α} {a : α}
    (hnd : l.Nodup) (hall : ∀ x ∈ l, x = a) : l.length ≤ 1 := by
  cases l with
  | nil => simp
  | cons x xs =>
    cases xs with
    | nil => simp
    | cons y ys =>
      exfalso
      have hx : x = a := hall x (by simp)
      have hy : y = a := hall y (by simp)
      have : x ∉ y :: ys := (List.nodup_cons.mp hnd).1
      exact this (by simp [hx, hy])


theorem fc_gsi_nonempty (b : FaceBox) (rest : List FaceBox) :
    fc_get_smile_intensity (b :: rest) =
      max (min (((b :: rest).length : ℚ) * 40 +
        ((b :: rest).map (fun x => ((x.area : ℚ) / 50) * 3)).sum) 100) 40 := by
  have hfun : (fun (x : FaceBox) => (x.area : ℚ) / 50 * 3) =
      (fun x : FaceBox => (x.area : ℚ) * (3 / 50)) := by
    funext x; ring
  simp [fc_get_smile_intensity, foldl_add_map]
  rw [hfun]
  ring_nf

/-- C2: the `FaceCapture` scorer computes exactly the spec formula
`min(100, max(40 if n>0 else 0, n*40 + Σ(area/50*3)))`, its score for a
non-empty detection set lies in `[40, 100]`; the opencv.py scorer also
returns `0` on an empty set and a clamped score in `[40, 100]` on a
non-empty one, but (see the counterexample) adds a history-dependent
momentum bonus, so its value does not equal the formula and depends on
the previous call. -/
theorem smile_intensity_formula_refinement :
    (∀ rects : List FaceBox,
      fc_get_smile_intensity rects = spec_intensity_formula rects) ∧
    (∀ rects : List FaceBox, rects ≠ [] →
      40 ≤ fc_get_smile_intensity rects ∧ fc_get_smile_intensity rects ≤ 100) ∧
    (∀ (prev : ℚ) (rects : List FaceBox), rects ≠ [] →
      40 ≤ (opencv_get_smile_intensity prev rects).2 ∧
        (opencv_get_smile_intensity prev rects).2 ≤ 100) ∧
    (∀ prev : ℚ, opencv_get_smile_intensity prev [] = (0, 0)) := by
  have hfc : ∀ rects : List FaceBox,
      fc_get_smile_intensity rects = spec_intensity_formula rects := by
    intro rects
    cases rects with
    | nil => simp [fc_get_smile_intensity, spec_intensity_formula]
    | cons b rest =>
      rw [fc_gsi_nonempty, clamp_comm]
      simp [spec_intensity_formula]
  refine ⟨hfc, ?_, ?_, fun prev => rfl⟩
  · intro rects hne
    match rects, hne with
    | b :: rest, _ =>
      rw [fc_gsi_nonempty]
      exact ⟨le_max_right _ _, max_le (min_le_right _ _) (by norm_num)⟩
  · intro prev rects hne
    match rects, hne with
    | b :: rest, _ =>
      simp only [opencv_get_smile_intensity, List.length_cons]
      rw [if_neg (Nat.succ_ne_zero rest.length), if_pos (Nat.succ_pos rest.length)]
      exact ⟨le_max_right _ _, max_le (min_le_right _ _) (by norm_num)⟩

/-- Counterexample to C2 as stated: at program start
(`previous_smile_intensity = 0`) a single 10×10 detection makes opencv.py's
`get_smile_intensity` return `(40 + 6) * 1.5 = 69`, not the spec formula's
`46`. -/
theorem smile_intensity_momentum_cex :
    (opencv_get_smile_intensity 0 [⟨0, 0, 10, 10⟩]).2 ≠
      spec_intensity_formula [⟨0, 0, 10, 10⟩] := by
  norm_num [opencv_get_smile_intensity, spec_intensity_formula, FaceBox.area,
    abs_of_nonneg, min_def, max_def]

theorem smile_intensity_formula_refinement_witness :
    ([(⟨0, 0, 10, 10⟩ : FaceBox)] ≠ []) ∧
    (40 ≤ fc_get_smile_intensity [⟨0, 0, 10, 10⟩] ∧
      fc_get_smile_intensity [⟨0, 0, 10, 10⟩] ≤ 100) :=
  ⟨by simp, smile_intensity_formula_refinement.2.1 [⟨0, 0, 10, 10⟩] (by simp)⟩

theorem fc_score_history_append (l : List (List FaceBox)) (b : List FaceBox) :
    fc_score_history (l ++ [b]) =
      fc_score_history l ++ [fc_get_smile_intensity b] := by
  induction l with
  | nil => rfl
  | cons s rest ih => simp [fc_score_history, ih]

/-- C7 (amended): the `FaceCapture` scorer carries no state between calls:
scoring the same detection set as the last call of any two call histories
yields the same score.  (The opencv.py scorer does not have this property;
see the counterexample.) -/
theorem fc_score_history_independent :
    ∀ (h1 h2 : List (List FaceBox)) (b : List FaceBox),
      (fc_score_history (h1 ++ [b])).getLast? =
        (fc_score_history (h2 ++ [b])).getLast? := by
  intro h1 h2 b
  rw [fc_score_history_append, fc_score_history_append,
    List.getLast?_concat, List.getLast?_concat]

/-- Counterexample to C7 as stated: scoring the same single 10×20 detection
with opencv.py's `get_smile_intensity` yields 78 on a fresh session but 65
when the same input was scored immediately before, because the momentum
bonus reads the `previous_smile_intensity` global. -/
theorem opencv_score_history_dependent_cex :
    (opencv_score_history 0 [[⟨0, 0, 10, 20⟩]]).getLast? ≠
      (opencv_score_history 0
        [[(⟨0, 0, 10, 20⟩ : FaceBox)], [⟨0, 0, 10, 20⟩]]).getLast? := by
  norm_num [opencv_score_history, opencv_get_smile_intensity, FaceBox.area,
    abs_of_nonneg, abs_of_nonpos, min_def, max_def]

theorem capture_sound_lift (p : ℚ × ℚ) (rest : List (ℚ × ℚ)) (n : ℕ)
    (hD : ∃ j, j ≤ n ∧ 3 ≤ (rest.getD n (0, 0)).2 - (rest.getD j (0, 0)).2 ∧
      ∀ k, j ≤ k → k ≤ n → 98 ≤ (rest.getD k (0, 0)).1) :
    ∃ j, j ≤ n + 1 ∧
      3 ≤ ((p :: rest).getD (n + 1) (0, 0)).2 - ((p :: rest).getD j (0, 0)).2 ∧
      ∀ k, j ≤ k → k ≤ n + 1 → 98 ≤ ((p :: rest).getD k (0, 0)).1 := by
  obtain ⟨j, hj, ht, hall⟩ := hD
  refine ⟨j + 1, by omega, ?_, ?_⟩
  · simpa [List.getD_cons_succ] using ht
  · intro k hk1 hk2
    obtain ⟨m, rfl⟩ : ∃ m, k = m + 1 := ⟨k - 1, by omega⟩
    simpa [List.getD_cons_succ] using hall m (by omega) (by omega)

theorem capture_run_sound_aux :
    ∀ (trace : List (ℚ × ℚ)) (st : Option ℚ) (i : ℕ), i < trace.length →
      (capture_run st trace).getD i false = true →
      (∃ j, j ≤ i ∧ 3 ≤ (trace.getD i (0, 0)).2 - (trace.getD j (0, 0)).2 ∧
        ∀ k, j ≤ k → k ≤ i → 98 ≤ (trace.getD k (0, 0)).1) ∨
      (∃ s, st = some s ∧ 3 ≤ (trace.getD i (0, 0)).2 - s ∧
        ∀ k, k ≤ i → 98 ≤ (trace.getD k (0, 0)).1) := by
  intro trace
  induction trace with
  | nil => intro st i hi _; simp at hi
  | cons p rest ih =>
    intro st i hi hfire
    have hrun : capture_run st (p :: rest) =
        (capture_step st p.1 p.2).2 :: capture_run (capture_step st p.1 p.2).1 rest := rfl
    rw [hrun] at hfire
    cases i with
    | zero =>
      simp only [List.getD_cons_zero] at hfire
      by_cases h98 : 98 ≤ p.1
      · by_cases hcap : 3 ≤ p.2 - st.getD p.2 ∧ 98 ≤ p.1
        · cases st with
          | none =>
            exfalso
            simp only [Option.getD_none] at hcap
            linarith [hcap.1]
          | some s =>
            right
            refine ⟨s, rfl, ?_, ?_⟩
            · simpa only [List.getD_cons_zero, Option.getD_some] using hcap.1
            · intro k hk
              obtain rfl : k = 0 := by omega
              simpa using h98
        · exfalso
          have hlt : ¬ 3 ≤ p.2 - st.getD p.2 := fun hgap => hcap ⟨hgap, h98⟩
          simp [capture_step, h98, hlt] at hfire
      · exfalso
        simp [capture_step, h98] at hfire
    | succ n =>
      simp only [List.getD_cons_succ] at hfire
      have hn : n < rest.length := by
        simp only [List.length_cons] at hi; omega
      have D := ih ((capture_step st p.1 p.2).1) n hn hfire
      by_cases h98 : 98 ≤ p.1
      · by_cases hcap : 3 ≤ p.2 - st.getD p.2 ∧ 98 ≤ p.1
        · have hst2 : (capture_step st p.1 p.2).1 = none := by
            simp [capture_step, h98, hcap]
          rw [hst2] at D
          rcases D with hD | ⟨s, hs, _, _⟩
          · exact Or.inl (capture_sound_lift p rest n hD)
          · simp at hs
        · cases st with
          | none =>
            have hst2 : (capture_step none p.1 p.2).1 = some p.2 := by
              simp [capture_step, h98]
              norm_num
            rw [hst2] at D
            rcases D with hD | ⟨s, hs, ht, hall⟩
            · exact Or.inl (capture_sound_lift p rest n hD)
            · have hs' : p.2 = s := Option.some.inj hs
              left
              refine ⟨0, by omega, ?_, ?_⟩
              · simpa [List.getD_cons_succ, List.getD_cons_zero, ← hs'] using ht
              · intro k _ hk
                cases k with
                | zero => simpa using h98
                | succ m => simpa [List.getD_cons_succ] using hall m (by omega)
          | some s0 =>
            have hst2 : (capture_step (some s0) p.1 p.2).1 = some s0 := by
              have hlt : ¬ 3 ≤ p.2 - s0 := fun hgap => hcap ⟨by simpa using hgap, h98⟩
              simp [capture_step, h98, hlt]
            rw [hst2] at D
            rcases D with hD | ⟨s, hs, ht, hall⟩
            · exact Or.inl (capture_sound_lift p rest n hD)
            · have hs' : s0 = s := Option.some.inj hs
              right
              refine ⟨s0, rfl, ?_, ?_⟩
              · simpa [List.getD_cons_succ, ← hs'] using ht
              · intro k hk
                cases k with
                | zero => simpa using h98
                | succ m => simpa [List.getD_cons_succ] using hall m (by omega)
      · have hst2 : (capture_step st p.1 p.2).1 = none := by
          simp [capture_step, h98]
        rw [hst2] at D
        rcases D with hD | ⟨s, hs, _, _⟩
        · exact Or.inl (capture_sound_lift p rest n hD)
        · simp at hs

/-- C1: the capture branch is reached at step `i` only if there is an
earlier step `j` with `t_i - t_j ≥ 3.0` seconds such that every step from
`j` through `i` (the capture instant included) has intensity ≥ 98; a step
with intensity below 98 unconditionally resets the hold timer with no
partial credit; and on the concrete intensity sequence
`[98, 98, 50, 98, 98, 98]` (timestamps 0,1,2,3,4,6) no capture happens
during the first run of 98s — in particular not at `t = 3`, three seconds
after the first 98, because the break at `t = 2` restarted the hold — and
capture fires only three seconds after the post-break restart. -/
theorem capture_requires_continuous_hold :
    (∀ (trace : List (ℚ × ℚ)) (i : ℕ), i < trace.length →
      (capture_run none trace).getD i false = true →
      ∃ j, j ≤ i ∧ 3 ≤ (trace.getD i (0, 0)).2 - (trace.getD j (0, 0)).2 ∧
        ∀ k, j ≤ k → k ≤ i → 98 ≤ (trace.getD k (0, 0)).1) ∧
    (∀ (st : Option ℚ) (intensity now : ℚ), intensity < 98 →
      capture_step st intensity now = (none, false)) ∧
    capture_run none [(98, 0), (98, 1), (50, 2), (98, 3), (98, 4), (98, 6)] =
      [false, false, false, false, false, true] := by
  refine ⟨?_, ?_, ?_⟩
  · intro trace i hi hfire
    rcases capture_run_sound_aux trace none i hi hfire with h | ⟨s, hs, _, _⟩
    · exact h
    · simp at hs
  · intro st intensity now h
    simp [capture_step, not_le.mpr h]
  · norm_num [capture_run, capture_step]

theorem capture_requires_continuous_hold_witness :
    ∃ j, j ≤ 1 ∧
      3 ≤ (([((98 : ℚ), (0 : ℚ)), (98, 4)].getD 1 (0, 0)).2 -
        ([((98 : ℚ), (0 : ℚ)), (98, 4)].getD j (0, 0)).2) ∧
      ∀ k, j ≤ k → k ≤ 1 → 98 ≤ ([((98 : ℚ), (0 : ℚ)), (98, 4)].getD k (0, 0)).1 :=
  capture_requires_continuous_hold.1 [(98, 0), (98, 4)] 1 (by norm_num)
    (by norm_num [capture_run, capture_step])

/-- C3: with an empty cascade detection set, a curve score strictly above
40 synthesizes exactly one box `(w//4, int(0.55*h), w//2, h//3)`, which
starts at the mouth band and lies inside the face crop; a curve score of
40 or below produces zero detections. -/
theorem empty_cascade_synthetic_box :
    (∀ (curve : ℚ) (h w : ℕ), 40 < curve →
      fuse_smiles [] curve h w =
        [⟨((w / 4 : ℕ) : ℤ), ((mouth_region_start h : ℕ) : ℤ),
          ((w / 2 : ℕ) : ℤ), ((h / 3 : ℕ) : ℤ)⟩] ∧
      mouth_region_start h + h / 3 ≤ h ∧ w / 4 + w / 2 ≤ w) ∧
    (∀ (curve : ℚ) (h w : ℕ), curve ≤ 40 → fuse_smiles [] curve h w = []) := by
  constructor
  · intro curve h w hcurve
    refine ⟨by simp [fuse_smiles, hcurve], ?_, ?_⟩
    · simp only [mouth_region_start]; omega
    · omega
  · intro curve h w hcurve
    simp [fuse_smiles, not_lt.mpr hcurve]

theorem empty_cascade_synthetic_box_witness :
    (fuse_smiles [] 45 90 100 =
      [⟨((100 / 4 : ℕ) : ℤ), ((mouth_region_start 90 : ℕ) : ℤ),
        ((100 / 2 : ℕ) : ℤ), ((90 / 3 : ℕ) : ℤ)⟩] ∧
      mouth_region_start 90 + 90 / 3 ≤ 90 ∧ 100 / 4 + 100 / 2 ≤ 100) ∧
    fuse_smiles [] 30 90 100 = [] :=
  ⟨empty_cascade_synthetic_box.1 45 90 100 (by norm_num),
   empty_cascade_synthetic_box.2 30 90 100 (by norm_num)⟩

theorem filter_face_jitter_loop_noop :
    ∀ (faces : List FaceBox) (previous : List (ℕ × FaceBox)) (used : List ℕ),
      filter_face_jitter_loop previous used faces = faces := by
  intro faces
  induction faces with
  | nil => intro previous used; rfl
  | cons f rest ih =>
    intro previous used
    rw [filter_face_jitter_loop]
    cases jitter_scan f used previous with
    | none => simp [ih]
    | some pid => simp [ih]

/-- C4 (code bug): `filter_face_jitter` never drops any candidate — every
source path appends the face (the small-movement "drop" case falls through
the inner loop without setting `matched`, and the `if not matched`
fallback then appends it as a new detection), so the filter is the
identity on the candidate list, contrary to its own docstring
("Only keep faces that moved significantly or are new detections").  In
particular the 1px-offset candidate `(11,10,30,30)` against previous box
`(10,10,30,30)` (center distance 1, size delta 0) is retained, where the
claim requires it to be dropped. -/
theorem jitter_filter_is_noop :
    (∀ (previous faces : List FaceBox),
      filter_face_jitter previous faces = faces) ∧
    filter_face_jitter [⟨10, 10, 30, 30⟩] [⟨11, 10, 30, 30⟩] =
      [⟨11, 10, 30, 30⟩] := by
  have hall : ∀ (previous faces : List FaceBox),
      filter_face_jitter previous faces = faces := by
    intro previous faces
    exact filter_face_jitter_loop_noop faces _ []
  exact ⟨hall, hall _ _⟩

/-- Counterexample to C5 as stated: the per-frame capture decision is not
a function of the frame's maximum intensity and is not invariant under
permuting the faces' processing order.  With face intensities `[98, 50]`
at `t = 0` the trailing 50-intensity face resets the hold timer started by
the 98-intensity face, so a 98 at `t = 3` does not capture; with the same
faces processed in the order `[50, 98]` the timer survives the frame and
the 98 at `t = 3` captures. -/
theorem per_face_order_dependence_cex :
    List.Perm [(98 : ℚ), 50] [50, 98] ∧
    frames_run none [([98, 50], 0), ([98], 3)] = [false, false] ∧
    frames_run none [([50, 98], 0), ([98], 3)] = [false, true] := by
  refine ⟨List.Perm.swap 50 98 [], ?_, ?_⟩ <;>
    norm_num [frames_run, frame_faces_step, capture_step]

/-- C5 (amended): within a frame, src/opencv.py's loop steps the shared
hold state once per face with that face's own intensity, in processing
order (`max_smile_in_frame` is only displayed); consequently any frame
whose last-processed face has intensity below 98 ends with the hold timer
reset, regardless of the other faces' intensities. -/
theorem trailing_low_intensity_resets_timer (st : Option ℚ) (now : ℚ)
    (intensities : List ℚ) (lowI : ℚ) (hlow : lowI < 98) :
    (frame_faces_step st now (intensities ++ [lowI])).1 = none := by
  simp only [frame_faces_step, List.foldl_append, List.foldl_cons, List.foldl_nil]
  simp [capture_step, not_le.mpr hlow]

theorem trailing_low_intensity_resets_timer_witness :
    (50 : ℚ) < 98 ∧ (frame_faces_step none 0 ([98] ++ [50])).1 = none :=
  ⟨by norm_num, trailing_low_intensity_resets_timer none 0 [98] 50 (by norm_num)⟩

/-- Counterexample to C6 as stated: in src/opencv.py the capture branch is
not terminal — after a capture the hold timer is reset ("Reset for next
capture") and the loop keeps running, so a session whose intensity stays
at 98 at times 0, 3, 6, 9 reaches the capture/export branch twice. -/
theorem opencv_double_capture_cex :
    capture_run none [(98, 0), (98, 3), (98, 6), (98, 9)] =
      [false, true, false, true] := by
  norm_num [capture_run, capture_step]

/-- C6 (amended): the `FaceCapture` session loop (src/face_capture.py)
breaks out of both loops at the first successful capture, so at most one
capture (hence at most one export) occurs per session. -/
theorem fc_session_at_most_one_capture :
    ∀ (trace : List (ℚ × ℚ)) (st : Option ℚ),
      (fc_capture_run st trace).count true ≤ 1 := by
  intro trace
  induction trace with
  | nil => intro st; simp [fc_capture_run]
  | cons p rest ih =>
    intro st
    rw [fc_capture_run]
    by_cases hfired : (capture_step st p.1 p.2).2 = true
    · simp [hfired]
    · simp only [Bool.not_eq_true] at hfired
      simp [hfired, List.count_cons, ih]

/-- C8: a zero-area face crop is treated as "no signal" everywhere: the
threaded detector stores an empty detection set, the curve analyzer
returns 0, and the intensity of an empty detection set is 0 in both
scorers (opencv.py additionally resets its momentum global to 0). -/
theorem zero_size_crop_scores_zero :
    (∀ (s1 s2 s3 : List FaceBox) (curve : ℚ) (h w : ℕ),
      detect_smiles_threaded 0 s1 s2 s3 curve h w = []) ∧
    (∀ (edgeDensity : ℚ) (contours : List (ℚ × ℕ)) (brightnessDiff horizFrac : ℚ),
      detect_smile_curves 0 edgeDensity contours brightnessDiff horizFrac = 0) ∧
    fc_get_smile_intensity [] = 0 ∧
    (∀ previous : ℚ, opencv_get_smile_intensity previous [] = (0, 0)) := by
  exact ⟨fun s1 s2 s3 curve h w => rfl, fun ed cs bd hf => rfl, rfl, fun previous => rfl⟩

/-- C9: for a face center inside the frame (edges included) and a positive
radius, the circular-crop slice bounds are clipped to the frame:
`0 ≤ x_min ≤ x_max ≤ W` and `0 ≤ y_min ≤ y_max ≤ H`, so the slice indices
are in range and the resulting crop never has negative size. -/
theorem crop_circle_bounds_clipped (frameW frameH cx cy radius : ℤ)
    (hcx0 : 0 ≤ cx) (hcxW : cx ≤ frameW) (hcy0 : 0 ≤ cy) (hcyH : cy ≤ frameH)
    (hr : 0 < radius) :
    0 ≤ (crop_circle_bounds frameW frameH cx cy radius).1 ∧
    (crop_circle_bounds frameW frameH cx cy radius).1 ≤
      (crop_circle_bounds frameW frameH cx cy radius).2.1 ∧
    (crop_circle_bounds frameW frameH cx cy radius).2.1 ≤ frameW ∧
    0 ≤ (crop_circle_bounds frameW frameH cx cy radius).2.2.1 ∧
    (crop_circle_bounds frameW frameH cx cy radius).2.2.1 ≤
      (crop_circle_bounds frameW frameH cx cy radius).2.2.2 ∧
    (crop_circle_bounds frameW frameH cx cy radius).2.2.2 ≤ frameH := by
  simp only [crop_circle_bounds]
  refine ⟨?_, ?_, ?_, ?_, ?_, ?_⟩ <;> omega

theorem crop_circle_bounds_clipped_witness :
    0 ≤ (crop_circle_bounds 640 480 0 0 100).1 ∧
    (crop_circle_bounds 640 480 0 0 100).1 ≤ (crop_circle_bounds 640 480 0 0 100).2.1 ∧
    (crop_circle_bounds 640 480 0 0 100).2.1 ≤ 640 ∧
    0 ≤ (crop_circle_bounds 640 480 0 0 100).2.2.1 ∧
    (crop_circle_bounds 640 480 0 0 100).2.2.1 ≤
      (crop_circle_bounds 640 480 0 0 100).2.2.2 ∧
    (crop_circle_bounds 640 480 0 0 100).2.2.2 ≤ 480 :=
  crop_circle_bounds_clipped 640 480 0 0 100 (by norm_num) (by norm_num)
    (by norm_num) (by norm_num) (by norm_num)

theorem cleanup_desc_trans :
    ∀ a b c : String × ℚ, decide (b.2 ≤ a.2) = true → decide (c.2 ≤ b.2) = true →
      decide (c.2 ≤ a.2) = true := by
  intro a b c hab hbc
  rw [decide_eq_true_eq] at *
  exact le_trans hbc hab

theorem cleanup_desc_total :
    ∀ a b : String × ℚ, (decide (b.2 ≤ a.2) || decide (a.2 ≤ b.2)) = true := by
  intro a b
  rcases le_total b.2 a.2 with h | h <;> simp [h]

theorem cleanup_old_captures_eq_of_many (dir : List (String × ℚ))
    (hlen : ¬ (dir.filter (fun f => is_capture_file f.1)).length ≤ 1) :
    cleanup_old_captures dir = dir.filter (fun f => !is_capture_file f.1 ||
      decide (((dir.filter (fun f => is_capture_file f.1)).mergeSort
        (fun a b => decide (b.2 ≤ a.2))).head? = some f)) := by
  simp [cleanup_old_captures, hlen]

/-- C10: after the post-capture cleanup the output directory holds at most
one `smile_capture_*.jpg` file, and any surviving matching file has
modification time at least that of every matching file that was present
before the cleanup (i.e. only the most recently modified capture
survives; earlier captures are deleted, not merely superseded). -/
theorem cleanup_keeps_at_most_one_capture (dir : List (String × ℚ)) (hnd : dir.Nodup) :
    ((cleanup_old_captures dir).filter (fun f => is_capture_file f.1)).length ≤ 1 ∧
    ∀ f ∈ cleanup_old_captures dir, is_capture_file f.1 = true →
      ∀ g ∈ dir, is_capture_file g.1 = true → g.2 ≤ f.2 := by
  by_cases hlen : (dir.filter (fun f => is_capture_file f.1)).length ≤ 1
  · have hcleanup : cleanup_old_captures dir = dir := by
      simp [cleanup_old_captures, hlen]
    rw [hcleanup]
    refine ⟨hlen, ?_⟩
    intro f hf hfc g hg hgc
    have hf' : f ∈ dir.filter (fun f => is_capture_file f.1) :=
      List.mem_filter.mpr ⟨hf, hfc⟩
    have hg' : g ∈ dir.filter (fun f => is_capture_file f.1) :=
      List.mem_filter.mpr ⟨hg, hgc⟩
    rw [mem_eq_of_length_le_one hlen hg' hf']
  · rw [cleanup_old_captures_eq_of_many dir hlen]
    have hperm : ((dir.filter (fun f => is_capture_file f.1)).mergeSort
        (fun a b => decide (b.2 ≤ a.2))).Perm
          (dir.filter (fun f => is_capture_file f.1)) :=
      List.mergeSort_perm _ _
    have hpw := List.sorted_mergeSort cleanup_desc_trans cleanup_desc_total
      (dir.filter (fun f => is_capture_file f.1))
    cases hsl : (dir.filter (fun f => is_capture_file f.1)).mergeSort
        (fun a b => decide (b.2 ≤ a.2)) with
    | nil =>
      exfalso
      have := hperm.length_eq
      rw [hsl] at this
      simp at this
      rw [← this] at hlen
      simp at hlen
    | cons hd tl =>
      rw [hsl] at hperm hpw
      have hmax : ∀ g ∈ dir, is_capture_file g.1 = true → g.2 ≤ hd.2 := by
        intro g hg hgc
        have hg' : g ∈ hd :: tl := hperm.mem_iff.mpr (List.mem_filter.mpr ⟨hg, hgc⟩)
        rcases List.mem_cons.mp hg' with rfl | hgtl
        · exact le_refl _
        · exact of_decide_eq_true ((List.pairwise_cons.mp hpw).1 g hgtl)
      have hdeq : ∀ f, f ∈ dir.filter (fun f => !is_capture_file f.1 ||
            decide ((hd :: tl).head? = some f)) → is_capture_file f.1 = true → f = hd := by
        intro f hf hfc
        have hpred := (List.mem_filter.mp hf).2
        rw [hfc] at hpred
        simp only [Bool.not_true, Bool.false_or, decide_eq_true_eq, List.head?_cons] at hpred
        exact (Option.some.inj hpred).symm
      constructor
      · apply length_le_one_of_nodup_all_eq (a := hd)
        · exact ((hnd.filter _).filter _)
        · intro x hx
          have hx1 := List.mem_filter.mp hx
          exact hdeq x hx1.1 hx1.2
      · intro f hf hfc g hg hgc
        rw [hdeq f hf hfc]
        exact hmax g hg hgc

theorem cleanup_keeps_at_most_one_capture_witness :
    ([(("smile_capture_a.jpg" : String), (1 : ℚ)), ("smile_capture_b.jpg", 2),
      ("other.txt", 5)].Nodup) ∧
    ((cleanup_old_captures [(("smile_capture_a.jpg" : String), (1 : ℚ)),
      ("smile_capture_b.jpg", 2), ("other.txt", 5)]).filter
        (fun f => is_capture_file f.1)).length ≤ 1 := by
  have hnd : ([(("smile_capture_a.jpg" : String), (1 : ℚ)), ("smile_capture_b.jpg", 2),
      ("other.txt", 5)].Nodup) := by
    simp [List.nodup_cons, Prod.ext_iff]
  exact ⟨hnd, (cleanup_keeps_at_most_one_capture _ hnd).1⟩
